import Mathlib

/-!
Shallow embedding of the `implement-dns` repository (Rust) in Lean 4.

Source layout: `src/lib.rs` (wire codec and resolver), `src/ipv4.rs`,
`src/ipv6.rs`.  Machine integers are modelled as `Nat` (`u8` values stay
below 256 by construction of the byte lists; `as u8` casts become `% 256`).
Rust `String`s are modelled by their UTF-8 byte lists, so `str::split('.')`
becomes splitting a byte list on byte 46 (valid because `.` is ASCII and
UTF-8 continuation bytes are ≥ 0x80).  `std::io::Cursor<&[u8]>` becomes a
`Cursor` structure (byte list plus position).  Fallible Rust code returns
`Outcome`, which distinguishes Ok results, `io::Error`s, panics (slice
index out of bounds) and divergence (infinite loops / unbounded recursion,
modelled by exhausting an explicit fuel parameter that the Rust code does
not have).
-/

namespace ImplementDNS

abbrev Byte := Nat

/-- `u16::from_be_bytes` on two bytes. -/
def be16 (hi lo : Byte) : Nat := hi * 256 + lo

/-- `u16::to_be_bytes` (for values below 2^16 this is the exact byte pair). -/
def u16ToBytes (n : Nat) : List Byte := [n / 256 % 256, n % 256]

/-- `u32::from_be_bytes` on four bytes. -/
def be32 (b0 b1 b2 b3 : Byte) : Nat := ((b0 * 256 + b1) * 256 + b2) * 256 + b3

/-- `u32::to_be_bytes` (for values below 2^32 this is the exact byte quadruple). -/
def u32ToBytes (n : Nat) : List Byte :=
  [n / 16777216 % 256, n / 65536 % 256, n / 256 % 256, n % 256]

/-- The `std::io::Error` values the library constructs or receives. -/
inductive IOErr where
  /-- `ErrorKind::UnexpectedEof`, produced by `read_exact` past the end. -/
  | eof
  /-- `ErrorKind::InvalidInput`, from the `try_into` fallbacks. -/
  | invalidInput
  /-- `ErrorKind::Other, "Invalid TYPE field"`. -/
  | invalidType
  /-- `ErrorKind::Other, "Invalid CLASS field"`. -/
  | invalidClass
  /-- `ErrorKind::InvalidData`, from the UTF-8 check in `DomainName::from_reader`. -/
  | invalidData
  /-- `ErrorKind::Other, "No answer found for domain name"`. -/
  | noAnswer
  deriving DecidableEq, Repr

/-- Possible outcomes of running a piece of Rust code: a value, an
`io::Error`, a panic, or divergence (never returning).  Divergence is
observed by exhausting the explicit fuel we add to loops/recursion that the
Rust source leaves unbounded. -/
inductive Outcome (α : Type) where
  | diverge
  | panic
  | error (e : IOErr)
  | ok (a : α)
  deriving DecidableEq, Repr

/-- `std::io::Cursor<&[u8]>`: the underlying buffer plus a read position. -/
structure Cursor where
  data : List Byte
  pos : Nat
  deriving DecidableEq, Repr

/-- `read_exact` into a buffer of `k` bytes: succeeds returning the bytes and
the advanced cursor iff `k` bytes remain, else `UnexpectedEof`. -/
def Cursor.readExact (c : Cursor) (k : Nat) : Except IOErr (List Byte × Cursor) :=
  if c.pos + k ≤ c.data.length then
    .ok ((c.data.drop c.pos).take k, ⟨c.data, c.pos + k⟩)
  else .error .eof

/-- `str::split('.')` on the UTF-8 bytes (separator byte 46).  Like Rust's
`split`, the empty input yields one empty part, and leading/trailing
separators yield empty parts. -/
def splitDot : List Byte → List (List Byte)
  | [] => [[]]
  | b :: bs =>
    if b = 46 then [] :: splitDot bs
    else
      match splitDot bs with
      | [] => [[b]]
      | part :: parts => (b :: part) :: parts

/-- `Vec::join(&b'.')`: concatenate the parts with a single 46 between
consecutive parts. -/
def joinDot : List (List Byte) → List Byte
  | [] => []
  | [p] => p
  | p :: ps => p ++ 46 :: joinDot ps

/-- One run of the `while should_read` loop of `DomainName::bytes_from_reader`
(`src/lib.rs` lines 248-270), returning the list of label byte-vectors the
loop accumulates together with the final cursor.  The 1-byte `read_exact`
calls are inlined (they succeed iff the position is in bounds, advancing by
one).  A length byte with either of its top two bits set takes the
compression branch of `bytes_from_reader_compressed` (lines 231-246): the
next byte is read, the 14-bit offset `(len & 63, off)` is formed, and
`jump` (a whole fresh `bytes_from_reader`) runs from that offset
unconditionally — the Rust code performs no comparison of the offset
against the current position; its joined result is pushed as a single
element and the caller's cursor is restored to just past the two pointer
bytes.  A literal label (`0 < len < 64`, top bits clear) is pushed and the
loop continues; a zero length byte ends the loop.

`iter` counts remaining loop iterations.  Every continuing iteration
advances the position by at least two and requires it to stay below the
buffer length, so the loop runs at most `c.data.length` iterations: the
callers pass `c.data.length + 1`, which by `nameIter_iter_irrelevant` below
makes the `iter = 0` case unreachable — the Rust loop itself always
terminates, only the pointer recursion (`jump`) does not. -/
def nameIter (jump : Cursor → Outcome (List Byte × Cursor)) :
    Nat → Cursor → Outcome (List (List Byte) × Cursor)
  | 0, _ => .diverge
  | iter + 1, c =>
    if c.pos < c.data.length then
      let len := c.data.getD c.pos 0
      if len &&& 192 ≠ 0 then
        if c.pos + 1 < c.data.length then
          let off := c.data.getD (c.pos + 1) 0
          match jump ⟨c.data, (len &&& 63) * 256 + off⟩ with
          | .ok (bytes, _) => .ok ([bytes], ⟨c.data, c.pos + 2⟩)
          | .error e => .error e
          | .panic => .panic
          | .diverge => .diverge
        else .error .eof
      else if 0 < len then
        if c.pos + 1 + len ≤ c.data.length then
          let label := (c.data.drop (c.pos + 1)).take len
          match nameIter jump iter ⟨c.data, c.pos + 1 + len⟩ with
          | .ok (parts, c') => .ok (label :: parts, c')
          | .error e => .error e
          | .panic => .panic
          | .diverge => .diverge
        else .error .eof
      else .ok ([], ⟨c.data, c.pos + 1⟩)
    else .error .eof

/-- `DomainName::bytes_from_reader`: run the label loop and join the
collected labels with `.` (byte 46).  The mutual recursion between
`bytes_from_reader` and `bytes_from_reader_compressed` is unbounded in the
Rust source; `fuel` bounds the depth of that recursion (the number of
pointer jumps, plus one for the initial call) and `.diverge` reports its
exhaustion, so "`.diverge` for every fuel" means the Rust code never
returns. -/
def DomainName.bytes_from_reader : Nat → Cursor → Outcome (List Byte × Cursor)
  | 0, _ => .diverge
  | fuel + 1, c =>
    match nameIter (fun c' => DomainName.bytes_from_reader fuel c') (c.data.length + 1) c with
    | .ok (parts, c') => .ok (joinDot parts, c')
    | .error e => .error e
    | .panic => .panic
    | .diverge => .diverge

/-- `DomainName` holds the UTF-8 bytes of the Rust `String`. -/
structure DomainName where
  string : List Byte
  deriving DecidableEq, Repr

/-- `DomainName::to_bytes`: split the string on `.`, emit for every part a
length byte (`part.len() as u8`, i.e. the length modulo 256 — the Rust cast
truncates) followed by all the part's bytes, then a terminating 0.  The
function is total: it performs no length validation and cannot fail. -/
def DomainName.to_bytes (n : DomainName) : List Byte :=
  ((splitDot n.string).map (fun part => part.length % 256 :: part)).flatten ++ [0]

/-- `DomainName::from_reader`.  The Rust code re-validates the decoded bytes
as UTF-8; in this byte-level model the string is its bytes, so that check is
the identity (every buffer used in the theorems below carries ASCII labels,
for which `String::from_utf8` succeeds). -/
def DomainName.from_reader (fuel : Nat) (c : Cursor) :
    Outcome (DomainName × Cursor) :=
  match DomainName.bytes_from_reader fuel c with
  | .ok (bytes, c') => .ok (⟨bytes⟩, c')
  | .error e => .error e
  | .panic => .panic
  | .diverge => .diverge

/-- The TYPE field enumeration (`src/lib.rs` lines 14-51). -/
inductive TypeField where
  | A | NS | MD | MF | CNAME | SOA | MB | MG | MR | NULL
  | WKS | PTR | HINFO | MINFO | MX | TXT | AAAA
  deriving DecidableEq, Repr

/-- The `#[repr(u16)]` discriminants of `TypeField`. -/
def TypeField.code : TypeField → Nat
  | .A => 1 | .NS => 2 | .MD => 3 | .MF => 4 | .CNAME => 5 | .SOA => 6
  | .MB => 7 | .MG => 8 | .MR => 9 | .NULL => 10 | .WKS => 11 | .PTR => 12
  | .HINFO => 13 | .MINFO => 14 | .MX => 15 | .TXT => 16 | .AAAA => 28

/-- `TypeField::to_be_bytes`. -/
def TypeField.to_be_bytes (t : TypeField) : List Byte := u16ToBytes t.code

/-- The numeric match inside `TypeField::from_bytes`: the closed lookup from
code to variant, any other value failing with `Invalid TYPE field`. -/
def TypeField.fromNum (n : Nat) : Except IOErr TypeField :=
  match n with
  | 1 => .ok .A | 2 => .ok .NS | 3 => .ok .MD | 4 => .ok .MF
  | 5 => .ok .CNAME | 6 => .ok .SOA | 7 => .ok .MB | 8 => .ok .MG
  | 9 => .ok .MR | 10 => .ok .NULL | 11 => .ok .WKS | 12 => .ok .PTR
  | 13 => .ok .HINFO | 14 => .ok .MINFO | 15 => .ok .MX | 16 => .ok .TXT
  | 28 => .ok .AAAA
  | _ => .error .invalidType

/-- `TypeField::from_reader`: read two bytes and decode them big-endian. -/
def TypeField.from_reader (c : Cursor) : Outcome (TypeField × Cursor) :=
  match c.readExact 2 with
  | .error e => .error e
  | .ok (bs, c') =>
    match TypeField.fromNum (be16 (bs.getD 0 0) (bs.getD 1 0)) with
    | .ok t => .ok (t, c')
    | .error e => .error e

/-- The CLASS field enumeration (`src/lib.rs` lines 94-103). -/
inductive ClassField where
  | IN | CS | CH | HS
  deriving DecidableEq, Repr

/-- The `#[repr(u16)]` discriminants of `ClassField`. -/
def ClassField.code : ClassField → Nat
  | .IN => 1 | .CS => 2 | .CH => 3 | .HS => 4

/-- `ClassField::to_be_bytes`. -/
def ClassField.to_be_bytes (cl : ClassField) : List Byte := u16ToBytes cl.code

/-- The numeric match inside `ClassField::from_bytes`. -/
def ClassField.fromNum (n : Nat) : Except IOErr ClassField :=
  match n with
  | 1 => .ok .IN | 2 => .ok .CS | 3 => .ok .CH | 4 => .ok .HS
  | _ => .error .invalidClass

/-- `ClassField::from_reader`. -/
def ClassField.from_reader (c : Cursor) : Outcome (ClassField × Cursor) :=
  match c.readExact 2 with
  | .error e => .error e
  | .ok (bs, c') =>
    match ClassField.fromNum (be16 (bs.getD 0 0) (bs.getD 1 0)) with
    | .ok cl => .ok (cl, c')
    | .error e => .error e

/-- `DNSHeader` (`src/lib.rs` lines 132-140).  All six fields are `u16`. -/
structure DNSHeader where
  id : Nat
  flags : Nat
  num_questions : Nat
  num_answers : Nat
  num_authorities : Nat
  num_additionals : Nat
  deriving DecidableEq, Repr

/-- `DNSHeader::to_bytes`: six big-endian 16-bit fields in order. -/
def DNSHeader.to_bytes (h : DNSHeader) : List Byte :=
  u16ToBytes h.id ++ u16ToBytes h.flags ++ u16ToBytes h.num_questions ++
    u16ToBytes h.num_answers ++ u16ToBytes h.num_authorities ++
    u16ToBytes h.num_additionals

/-- `DNSHeader::from_bytes`: index the first twelve bytes pairwise.  (The
Rust code `unwrap`s the sub-slice conversions; its only caller hands it
exactly twelve bytes.) -/
def DNSHeader.from_bytes (bytes : List Byte) : DNSHeader :=
  { id := be16 (bytes.getD 0 0) (bytes.getD 1 0)
    flags := be16 (bytes.getD 2 0) (bytes.getD 3 0)
    num_questions := be16 (bytes.getD 4 0) (bytes.getD 5 0)
    num_answers := be16 (bytes.getD 6 0) (bytes.getD 7 0)
    num_authorities := be16 (bytes.getD 8 0) (bytes.getD 9 0)
    num_additionals := be16 (bytes.getD 10 0) (bytes.getD 11 0) }

/-- `DNSHeader::from_reader`: read twelve bytes, then `from_bytes`. -/
def DNSHeader.from_reader (c : Cursor) : Outcome (DNSHeader × Cursor) :=
  match c.readExact 12 with
  | .error e => .error e
  | .ok (bs, c') => .ok (DNSHeader.from_bytes bs, c')

/-- `DNSQuestion` (`src/lib.rs` lines 179-183). -/
structure DNSQuestion where
  name : DomainName
  type_field : TypeField
  class_field : ClassField
  deriving DecidableEq, Repr

/-- `DNSQuestion::to_bytes`: encoded name, then type, then class. -/
def DNSQuestion.to_bytes (q : DNSQuestion) : List Byte :=
  q.name.to_bytes ++ q.type_field.to_be_bytes ++ q.class_field.to_be_bytes

/-- `DNSQuestion::from_reader`. -/
def DNSQuestion.from_reader (fuel : Nat) (c : Cursor) :
    Outcome (DNSQuestion × Cursor) :=
  match DomainName.from_reader fuel c with
  | .ok (name, c1) =>
    match TypeField.from_reader c1 with
    | .ok (t, c2) =>
      match ClassField.from_reader c2 with
      | .ok (cl, c3) => .ok (⟨name, t, cl⟩, c3)
      | .error e => .error e
      | .panic => .panic
      | .diverge => .diverge
    | .error e => .error e
    | .panic => .panic
    | .diverge => .diverge
  | .error e => .error e
  | .panic => .panic
  | .diverge => .diverge

/-- `std::net::Ipv4Addr`: four octets. -/
structure Ipv4 where
  o0 : Byte
  o1 : Byte
  o2 : Byte
  o3 : Byte
  deriving DecidableEq, Repr

/-- `ipv4_addr_from_bytes` (`src/ipv4.rs`): indexes `chunk[0] .. chunk[3]`.
A chunk shorter than four bytes makes the Rust code panic (slice index out
of bounds); the panic is modelled as `none`. -/
def ipv4_addr_from_bytes : List Byte → Option Ipv4
  | c0 :: c1 :: c2 :: c3 :: _ => some ⟨c0, c1, c2, c3⟩
  | _ => none

/-- `std::net::Ipv6Addr`: eight 16-bit segments. -/
structure Ipv6 where
  s0 : Nat
  s1 : Nat
  s2 : Nat
  s3 : Nat
  s4 : Nat
  s5 : Nat
  s6 : Nat
  s7 : Nat
  deriving DecidableEq, Repr

/-- `ipv6_addr_from_bytes` (`src/ipv6.rs`): indexes `chunk[0] .. chunk[15]`
pairwise big-endian; a chunk shorter than sixteen bytes panics (`none`). -/
def ipv6_addr_from_bytes : List Byte → Option Ipv6
  | c0 :: c1 :: c2 :: c3 :: c4 :: c5 :: c6 :: c7 :: c8 :: c9 :: c10 :: c11 ::
      c12 :: c13 :: c14 :: c15 :: _ =>
    some ⟨be16 c0 c1, be16 c2 c3, be16 c4 c5, be16 c6 c7,
          be16 c8 c9, be16 c10 c11, be16 c12 c13, be16 c14 c15⟩
  | _ => none

/-- `slice::chunks(4)`: consecutive 4-byte chunks, the last possibly
shorter. -/
def chunks4 : List Byte → List (List Byte)
  | c0 :: c1 :: c2 :: c3 :: rest => [c0, c1, c2, c3] :: chunks4 rest
  | [] => []
  | l => [l]

/-- `slice::chunks(16)`: consecutive 16-byte chunks, the last possibly
shorter. -/
def chunks16 : List Byte → List (List Byte)
  | c0 :: c1 :: c2 :: c3 :: c4 :: c5 :: c6 :: c7 :: c8 :: c9 :: c10 :: c11 ::
      c12 :: c13 :: c14 :: c15 :: rest =>
    [c0, c1, c2, c3, c4, c5, c6, c7, c8, c9, c10, c11, c12, c13, c14, c15] ::
      chunks16 rest
  | [] => []
  | l => [l]

/-- `iter().map(f).collect::<Vec<_>>()` where `f` may panic: the panic
(modelled by `f` returning `none`) aborts the whole collection. -/
def collectChunks {α : Type} (f : List Byte → Option α) :
    List (List Byte) → Option (List α)
  | [] => some []
  | ch :: rest =>
    match f ch with
    | none => none
    | some a =>
      match collectChunks f rest with
      | none => none
      | some l => some (a :: l)

/-- The interpretation of A-record RDATA (`src/lib.rs` lines 320-327):
`data.chunks(4).map(ipv4_addr_from_bytes).collect()`.  `none` models the
panic raised inside the map when the final chunk is ragged. -/
def a_record_ipv4 (data : List Byte) : Option (List Ipv4) :=
  collectChunks ipv4_addr_from_bytes (chunks4 data)

/-- The interpretation of AAAA-record RDATA (`src/lib.rs` lines 328-335). -/
def aaaa_record_ipv6 (data : List Byte) : Option (List Ipv6) :=
  collectChunks ipv6_addr_from_bytes (chunks16 data)

/-- `DNSRecord` (`src/lib.rs` lines 280-294). -/
structure DNSRecord where
  name : DomainName
  type_field : TypeField
  class_field : ClassField
  ttl : Nat
  data : List Byte
  ipv4 : Option (List Ipv4)
  ipv6 : Option (List Ipv6)
  ns_name : Option DomainName
  deriving DecidableEq, Repr

/-- `DNSRecord::from_reader` (`src/lib.rs` lines 296-347): name, type,
class, four TTL bytes, two RDLENGTH bytes, then exactly RDLENGTH data
bytes.  For an NS record the cursor is rewound to the RDATA start and a
(possibly compressed) domain name is re-parsed from there — and the cursor
is left wherever that parse ends, it is NOT advanced to the end of RDATA.
For A/AAAA records the RDATA chunks are interpreted as addresses, panicking
on a ragged final chunk. -/
def DNSRecord.from_reader (fuel : Nat) (c : Cursor) : Outcome (DNSRecord × Cursor) :=
  match DomainName.from_reader fuel c with
  | .error e => .error e
  | .panic => .panic
  | .diverge => .diverge
  | .ok (name, c1) =>
  match TypeField.from_reader c1 with
  | .error e => .error e
  | .panic => .panic
  | .diverge => .diverge
  | .ok (type_field, c2) =>
  match ClassField.from_reader c2 with
  | .error e => .error e
  | .panic => .panic
  | .diverge => .diverge
  | .ok (class_field, c3) =>
  match c3.readExact 4 with
  | .error e => .error e
  | .ok (ttl_bytes, c4) =>
  let ttl := be32 (ttl_bytes.getD 0 0) (ttl_bytes.getD 1 0)
      (ttl_bytes.getD 2 0) (ttl_bytes.getD 3 0)
  match c4.readExact 2 with
  | .error e => .error e
  | .ok (data_len_bytes, c5) =>
  let data_len := be16 (data_len_bytes.getD 0 0) (data_len_bytes.getD 1 0)
  let data_position := c5.pos
  match c5.readExact data_len with
  | .error e => .error e
  | .ok (data, c6) =>
  let nsStep : Outcome (Option DomainName × Cursor) :=
    if type_field = TypeField.NS then
      match DomainName.from_reader fuel ⟨c6.data, data_position⟩ with
      | .ok (nm, c7) => .ok (some nm, c7)
      | .error e => .error e
      | .panic => .panic
      | .diverge => .diverge
    else .ok (none, c6)
  match nsStep with
  | .error e => .error e
  | .panic => .panic
  | .diverge => .diverge
  | .ok (ns_name, cAfter) =>
  let ipv4Step : Outcome (Option (List Ipv4)) :=
    match type_field with
    | .A =>
      match a_record_ipv4 data with
      | some v => .ok (some v)
      | none => .panic
    | _ => .ok none
  match ipv4Step with
  | .error e => .error e
  | .panic => .panic
  | .diverge => .diverge
  | .ok ipv4 =>
  let ipv6Step : Outcome (Option (List Ipv6)) :=
    match type_field with
    | .AAAA =>
      match aaaa_record_ipv6 data with
      | some v => .ok (some v)
      | none => .panic
    | _ => .ok none
  match ipv6Step with
  | .error e => .error e
  | .panic => .panic
  | .diverge => .diverge
  | .ok ipv6 =>
    .ok (⟨name, type_field, class_field, ttl, data, ipv4, ipv6, ns_name⟩, cAfter)

/-- `DNSPacket` (`src/lib.rs` lines 350-357). -/
structure DNSPacket where
  header : DNSHeader
  questions : List DNSQuestion
  answers : List DNSRecord
  authorities : List DNSRecord
  additionals : List DNSRecord
  deriving DecidableEq, Repr

/-- The `for _ in 0..count { parse }` loops of `DNSPacket::from`: parse `n`
consecutive items, threading the cursor. -/
def parseN {α : Type} (parse : Cursor → Outcome (α × Cursor)) :
    Nat → Cursor → Outcome (List α × Cursor)
  | 0, c => .ok ([], c)
  | n + 1, c =>
    match parse c with
    | .error e => .error e
    | .panic => .panic
    | .diverge => .diverge
    | .ok (a, c') =>
      match parseN parse n c' with
      | .error e => .error e
      | .panic => .panic
      | .diverge => .diverge
      | .ok (rest, c'') => .ok (a :: rest, c'')

/-- `DNSPacket::from` (`src/lib.rs` lines 359-391): header, then
`num_questions` questions, then `num_answers`, `num_authorities` and
`num_additionals` records, in that order; trailing bytes are ignored. -/
def DNSPacket.from (fuel : Nat) (data : List Byte) : Outcome DNSPacket :=
  match DNSHeader.from_reader ⟨data, 0⟩ with
  | .error e => .error e
  | .panic => .panic
  | .diverge => .diverge
  | .ok (header, c1) =>
  match parseN (DNSQuestion.from_reader fuel) header.num_questions c1 with
  | .error e => .error e
  | .panic => .panic
  | .diverge => .diverge
  | .ok (questions, c2) =>
  match parseN (DNSRecord.from_reader fuel) header.num_answers c2 with
  | .error e => .error e
  | .panic => .panic
  | .diverge => .diverge
  | .ok (answers, c3) =>
  match parseN (DNSRecord.from_reader fuel) header.num_authorities c3 with
  | .error e => .error e
  | .panic => .panic
  | .diverge => .diverge
  | .ok (authorities, c4) =>
  match parseN (DNSRecord.from_reader fuel) header.num_additionals c4 with
  | .error e => .error e
  | .panic => .panic
  | .diverge => .diverge
  | .ok (additionals, _) =>
    .ok ⟨header, questions, answers, authorities, additionals⟩

/-- `DNSPacket::get_answer`: the first answer record of type A (the
requested query type and the queried name play no part). -/
def DNSPacket.get_answer (p : DNSPacket) : Option DNSRecord :=
  p.answers.find? (fun x => decide (x.type_field = TypeField.A))

/-- `DNSPacket::get_nameserver_record`: the first additional-section record
of type A. -/
def DNSPacket.get_nameserver_record (p : DNSPacket) : Option DNSRecord :=
  p.additionals.find? (fun x => decide (x.type_field = TypeField.A))

/-- `DNSPacket::get_nameserver`: the first authority-section record of type
NS. -/
def DNSPacket.get_nameserver (p : DNSPacket) : Option DNSRecord :=
  p.authorities.find? (fun x => decide (x.type_field = TypeField.NS))

/-- `build_query` (`src/lib.rs` lines 410-428): header with the random
transaction id (taken here as the parameter `id`, the only input that
varies between calls), zero flags, one question and zero record counts,
followed by the one question for the given name and type with class IN. -/
def build_query (id : Nat) (domain_name : DomainName) (type_field : TypeField) :
    List Byte :=
  let header : DNSHeader :=
    { id := id, flags := 0, num_questions := 1, num_answers := 0,
      num_authorities := 0, num_additionals := 0 }
  let question : DNSQuestion :=
    { name := domain_name, type_field := type_field, class_field := .IN }
  header.to_bytes ++ question.to_bytes

/-- The hardcoded root nameserver `198.41.0.4` of `resolve`. -/
def rootNameServer : Ipv4 := ⟨198, 41, 0, 4⟩

/-- `resolve` (`src/lib.rs` lines 441-473).  The transport collaborator
(`send_query`, a UDP exchange plus `DNSPacket::from`) is modelled by
`oracle`, giving the packet (or error) obtained by querying a server for a
name and type.  The loop body: if the packet has an answer (first A-type
answer record) with a first IPv4 address, return it; if it has an answer
without one, loop again against the same server; otherwise follow a glue
record from the additional section, or recursively resolve (from the root)
the first authority NS name; with none of those, fail with `NoAnswer`.
The Rust loop and recursion are unbounded — there is no hop counter —
so `fuel` counts loop iterations and recursive calls, and `.diverge` for
every fuel means the Rust code never returns. -/
def resolveFuel (oracle : Ipv4 → DomainName → TypeField → Except IOErr DNSPacket) :
    Nat → DomainName → TypeField → Ipv4 → Outcome Ipv4
  | 0, _, _, _ => .diverge
  | fuel + 1, domain_name, type_field, name_server =>
    match oracle name_server domain_name type_field with
    | .error e => .error e
    | .ok packet =>
      match packet.get_answer with
      | some answer =>
        match answer.ipv4.bind List.head? with
        | some ip => .ok ip
        | none => resolveFuel oracle fuel domain_name type_field name_server
      | none =>
        match packet.get_nameserver_record.bind (fun x => x.ipv4.bind List.head?) with
        | some nsIp => resolveFuel oracle fuel domain_name type_field nsIp
        | none =>
          match packet.get_nameserver.bind (fun x => x.ns_name) with
          | some nsName =>
            match resolveFuel oracle fuel nsName .A rootNameServer with
            | .ok ip => resolveFuel oracle fuel domain_name type_field ip
            | .error e => .error e
            | .panic => .panic
            | .diverge => .diverge
          | none => .error .noAnswer

/-- The public `resolve` surface: start the loop at the hardcoded root. -/
def resolve (oracle : Ipv4 → DomainName → TypeField → Except IOErr DNSPacket)
    (fuel : Nat) (domain_name : DomainName) (type_field : TypeField) : Outcome Ipv4 :=
  resolveFuel oracle fuel domain_name type_field rootNameServer

/-! ### Concrete adversarial inputs used by the claims -/

/-- Two synthetic nameserver addresses for the referral cycle. -/
def serverA : Ipv4 := ⟨10, 0, 0, 1⟩

def serverB : Ipv4 := ⟨10, 0, 0, 2⟩

/-- An additional-section glue A record carrying `ip` (as a decoded
`DNSRecord` would carry it: 4 RDATA bytes, `ipv4 = some [ip]`). -/
def glueRecord (ip : Ipv4) : DNSRecord :=
  ⟨⟨[]⟩, .A, .IN, 0, [ip.o0, ip.o1, ip.o2, ip.o3], some [ip], none, none⟩

/-- A referral response: no answers, no authorities, one glue record. -/
def gluePacket (ip : Ipv4) : DNSPacket :=
  ⟨⟨0, 0, 0, 0, 0, 1⟩, [], [], [], [glueRecord ip]⟩

/-- A transport in which every server answers every query with a referral:
`serverA` refers to `serverB` and every other server (including the root
and `serverB`) refers to `serverA`. -/
def cycleOracle : Ipv4 → DomainName → TypeField → Except IOErr DNSPacket :=
  fun ns _ _ => .ok (gluePacket (if ns = serverA then serverB else serverA))

/-- The UTF-8 bytes of `"target"`. -/
def targetName : DomainName := ⟨[116, 97, 114, 103, 101, 116]⟩

/-- The UTF-8 bytes of `"other"`. -/
def otherName : DomainName := ⟨[111, 116, 104, 101, 114]⟩

/-- An A answer record for `other` with address `9.9.9.9`. -/
def recOther : DNSRecord :=
  ⟨otherName, .A, .IN, 0, [9, 9, 9, 9], some [⟨9, 9, 9, 9⟩], none, none⟩

/-- An A answer record for `target` with address `1.2.3.4`. -/
def recTarget : DNSRecord :=
  ⟨targetName, .A, .IN, 0, [1, 2, 3, 4], some [⟨1, 2, 3, 4⟩], none, none⟩

/-- A response whose answer list holds first an A record for a different
name and then the A record for the queried name. -/
def mismatchPacket : DNSPacket :=
  ⟨⟨0, 0, 0, 2, 0, 0⟩, [], [recOther, recTarget], [], []⟩

/-! ### Auxiliary notions for the theorems -/

/-- Erase the interpreted IPv6 payload of a record (used to state that the
resolution loop never consults it). -/
def scrubRecordIpv6 (r : DNSRecord) : DNSRecord :=
  { r with ipv6 := none }

/-- Erase the interpreted IPv6 payloads of every record of a packet. -/
def scrubPacketIpv6 (p : DNSPacket) : DNSPacket :=
  ⟨p.header, p.questions, p.answers.map scrubRecordIpv6,
    p.authorities.map scrubRecordIpv6, p.additionals.map scrubRecordIpv6⟩

/-- Erase the IPv6 payloads of every packet an oracle returns. -/
def scrubOracleIpv6 (oracle : Ipv4 → DomainName → TypeField → Except IOErr DNSPacket) :
    Ipv4 → DomainName → TypeField → Except IOErr DNSPacket :=
  fun ns nm t =>
    match oracle ns nm t with
    | .ok p => .ok (scrubPacketIpv6 p)
    | .error e => .error e

/-- The per-part encoding step of `DomainName::to_bytes`: a (truncated)
length byte followed by the part's bytes, concatenated over all parts. -/
def encodeParts (parts : List (List Byte)) : List Byte :=
  (parts.map (fun part => part.length % 256 :: part)).flatten

/-- Modelled from the spec: the repository has no encoder for resource
records (`DNSRecord` has no `to_bytes`); spec §3 gives the record wire
layout — name, type, class, 32-bit TTL, 16-bit RDLENGTH, then RDATA — and
§4.2 `encode_message` requires records encoded in that shape.  The name,
type and class encoders are the source's own. -/
def DNSRecord.to_bytes (r : DNSRecord) : List Byte :=
  r.name.to_bytes ++ r.type_field.to_be_bytes ++ r.class_field.to_be_bytes ++
    u32ToBytes r.ttl ++ u16ToBytes r.data.length ++ r.data

/-- Modelled from the spec: the repository has no whole-message encoder
(`DNSPacket` has no `to_bytes`); spec §4.2 `encode_message` is the header,
then the questions, then the answer, authority and additional records in
that fixed order. -/
def DNSPacket.to_bytes (p : DNSPacket) : List Byte :=
  p.header.to_bytes ++ (p.questions.map DNSQuestion.to_bytes).flatten ++
    (p.answers.map DNSRecord.to_bytes).flatten ++
    (p.authorities.map DNSRecord.to_bytes).flatten ++
    (p.additionals.map DNSRecord.to_bytes).flatten

/-- Well-formed name: every label obtained by splitting on `.` has between
1 and 63 octets (spec §3 DomainName). -/
def wfName (n : DomainName) : Prop :=
  ∀ part ∈ splitDot n.string, 1 ≤ part.length ∧ part.length ≤ 63

/-- Well-formed header: all six fields fit in 16 bits (they are `u16` in
the source). -/
def wfHeader (h : DNSHeader) : Prop :=
  h.id < 65536 ∧ h.flags < 65536 ∧ h.num_questions < 65536 ∧
    h.num_answers < 65536 ∧ h.num_authorities < 65536 ∧ h.num_additionals < 65536

/-- Well-formed question: its name is well formed. -/
def wfQuestion (q : DNSQuestion) : Prop := wfName q.name

/-- Well-formed record: well-formed name, in-range TTL and RDLENGTH, and
interpreted payloads consistent with the RDATA exactly as the decoder
produces them: for A records the chunk interpretation (which must not
panic), for AAAA likewise, for NS an `ns_name` whose pointer-free encoding
is exactly the RDATA, and `none` elsewhere. -/
def wfRecord (r : DNSRecord) : Prop :=
  wfName r.name ∧ r.ttl < 4294967296 ∧ r.data.length < 65536 ∧
    (r.type_field = .A → (a_record_ipv4 r.data).isSome ∧ r.ipv4 = a_record_ipv4 r.data) ∧
    (r.type_field ≠ .A → r.ipv4 = none) ∧
    (r.type_field = .AAAA →
      (aaaa_record_ipv6 r.data).isSome ∧ r.ipv6 = aaaa_record_ipv6 r.data) ∧
    (r.type_field ≠ .AAAA → r.ipv6 = none) ∧
    (r.type_field = .NS → r.ns_name.isSome ∧ wfName (r.ns_name.getD ⟨[]⟩) ∧
      r.data = (r.ns_name.getD ⟨[]⟩).to_bytes) ∧
    (r.type_field ≠ .NS → r.ns_name = none)

/-- Well-formed message (spec §3): section counts equal to the list
lengths, and well-formed constituents. -/
def wfPacket (p : DNSPacket) : Prop :=
  wfHeader p.header ∧
    p.header.num_questions = p.questions.length ∧
    p.header.num_answers = p.answers.length ∧
    p.header.num_authorities = p.authorities.length ∧
    p.header.num_additionals = p.additionals.length ∧
    (∀ q ∈ p.questions, wfQuestion q) ∧
    (∀ r ∈ p.answers, wfRecord r) ∧
    (∀ r ∈ p.authorities, wfRecord r) ∧
    (∀ r ∈ p.additionals, wfRecord r)

/-- `parse` consumes exactly `bytes` from any position, producing `a`:
the shape of all the round-trip lemmas. -/
def ParsesTo {α : Type} (parse : Cursor → Outcome (α × Cursor))
    (bytes : List Byte) (a : α) : Prop :=
  ∀ pre rest, parse ⟨pre ++ bytes ++ rest, pre.length⟩ =
    .ok (a, ⟨pre ++ bytes ++ rest, pre.length + bytes.length⟩)

/-- A concrete well-formed sample message exercising every section: one
question, an A answer, an NS authority and an A glue additional. -/
def samplePacket : DNSPacket :=
  ⟨⟨513, 33152, 1, 1, 1, 1⟩,
    [⟨⟨[97, 98, 46, 99]⟩, .A, .IN⟩],
    [⟨⟨[97, 98, 46, 99]⟩, .A, .IN, 300, [5, 6, 7, 8], some [⟨5, 6, 7, 8⟩], none, none⟩],
    [⟨⟨[97, 98, 46, 99]⟩, .NS, .IN, 300, [2, 110, 115, 0],
      none, none, some ⟨[110, 115]⟩⟩],
    [⟨⟨[110, 115]⟩, .A, .IN, 300, [9, 9, 9, 9], some [⟨9, 9, 9, 9⟩], none, none⟩]⟩

/-! ## Theorems -/

set_option maxRecDepth 20000

/-- Splitting a byte string that contains no dot yields that single part. -/
theorem splitDot_eq_single {l : List Byte} (h : 46 ∉ l) : splitDot l = [l] := by
  induction l with
  | nil => rfl
  | cons b bs ih =>
    have hb : ¬ b = 46 := fun hb => h (by simp [hb])
    have hbs : 46 ∉ bs := fun hm => h (List.mem_cons_of_mem _ hm)
    simp [splitDot, hb, ih hbs]

/-- C5, amended: `DomainName::to_bytes` performs no validation at all.  For
every single-label input (no dot in the string) — of any length, including
far beyond 63 octets — it emits the length modulo 256 as the length byte,
all the label's octets, and the terminator; it cannot fail (it does not
return a `Result`). -/
theorem to_bytes_single_label (label : List Byte) (h : 46 ∉ label) :
    DomainName.to_bytes ⟨label⟩ = label.length % 256 :: label ++ [0] := by
  simp [DomainName.to_bytes, splitDot_eq_single h]

/-- Witness for C5: a 64-octet label (one past the 63 limit the claim says
is enforced) is encoded with length byte 64, not rejected. -/
theorem to_bytes_single_label_witness :
    DomainName.to_bytes ⟨List.replicate 64 97⟩ = 64 :: (List.replicate 64 97 ++ [0]) := by
  have h : (46 : Byte) ∉ List.replicate 64 97 := by decide
  simpa using to_bytes_single_label (List.replicate 64 97) h

/-- Counterexample for C5: encoding produces bytes — never an
`InvalidFormat` error — for a 64-octet label, for the empty input (which
yields `[0, 0]`) and for a leading empty label (`".a"`). -/
theorem to_bytes_accepts_invalid_labels :
    DomainName.to_bytes ⟨List.replicate 64 97⟩ = 64 :: (List.replicate 64 97 ++ [0]) ∧
    DomainName.to_bytes ⟨[]⟩ = [0, 0] ∧
    DomainName.to_bytes ⟨[46, 97]⟩ = [0, 1, 97, 0] :=
  ⟨by decide, by decide, by decide⟩

/-- C3, amended: domain-name decoding does NOT bound the number of pointer
hops: on the two-byte buffer whose first length byte is a compression
pointer targeting offset 0 (itself), the decoder never returns — for every
jump budget the model still reports divergence, i.e. the Rust recursion
between `bytes_from_reader` and `bytes_from_reader_compressed` is
infinite. -/
theorem self_pointer_diverges :
    ∀ fuel, DomainName.bytes_from_reader fuel ⟨[192, 0], 0⟩ = .diverge := by
  intro fuel
  induction fuel with
  | zero => rfl
  | succ n ih =>
    have h192 : (192 &&& 63) * 256 = 0 := by decide
    simp [DomainName.bytes_from_reader, nameIter, h192, ih]

/-- Counterexample for C3: on the self-pointing buffer `[0xC0, 0x00]` the
decoder has produced neither a name nor an error after 100 pointer hops. -/
theorem self_pointer_no_result :
    DomainName.bytes_from_reader 100 ⟨[192, 0], 0⟩ = .diverge := by decide

/-- Helper for C2: the label loop can only fail with `UnexpectedEof`,
provided the jump continuation also can only fail with it. -/
theorem nameIter_error_eof
    (jump : Cursor → Outcome (List Byte × Cursor))
    (hjump : ∀ c e, jump c = .error e → e = .eof) :
    ∀ iter c e, nameIter jump iter c = .error e → e = .eof := by
  intro iter
  induction iter with
  | zero => intro c e h; simp [nameIter] at h
  | succ n ih =>
    intro c e h
    simp only [nameIter] at h
    split at h
    · split at h
      · split at h
        · split at h
          · simp at h
          · rename_i heq
            cases h
            exact hjump _ _ heq
          · simp at h
          · simp at h
        · cases h; rfl
      · split at h
        · split at h
          · split at h
            · simp at h
            · rename_i heq
              cases h
              exact ih _ _ heq
            · simp at h
            · simp at h
          · cases h; rfl
        · simp at h
    · cases h; rfl

/-- C2, amended: domain-name decoding never produces an
`InvalidFormat`-style error: it performs no comparison between a
compression pointer's target offset and the pointer's own position, and
the only error it can ever return is `UnexpectedEof` from reading past the
end of the buffer.  A pointer whose target is ≥ its own offset is followed
unconditionally (succeeding on forward references, diverging on
self-loops). -/
theorem name_decoding_error_is_only_eof :
    ∀ fuel c e, DomainName.bytes_from_reader fuel c = .error e → e = .eof := by
  intro fuel
  induction fuel with
  | zero => intro c e h; simp [DomainName.bytes_from_reader] at h
  | succ n ih =>
    intro c e h
    simp only [DomainName.bytes_from_reader] at h
    split at h
    · simp at h
    · rename_i heq
      cases h
      exact nameIter_error_eof _ (fun c' e' h' => ih c' e' h') _ _ _ heq
    · simp at h
    · simp at h

/-- Witness for C2's amended theorem at a concrete failing read. -/
theorem name_decoding_error_is_only_eof_witness :
    DomainName.bytes_from_reader 1 ⟨[], 0⟩ = .error .eof ∧ IOErr.eof = IOErr.eof :=
  ⟨by decide, name_decoding_error_is_only_eof 1 ⟨[], 0⟩ .eof (by decide)⟩

/-- Counterexample for C2: a compression pointer at offset 0 whose 14-bit
target is 2 — i.e. greater than or equal to the pointer byte's own offset —
is NOT rejected with `InvalidFormat`: decoding follows it forward and
succeeds, returning the label at offset 2 with the cursor just past the
two pointer bytes. -/
theorem forward_pointer_accepted :
    DomainName.bytes_from_reader 10 ⟨[192, 2, 1, 97, 0], 0⟩ =
      .ok ([97], ⟨[192, 2, 1, 97, 0], 2⟩) := by decide

/-- C1, amended: `resolve` has no hop counter and no
`TooManyRedirections` error.  Under the glue-referral cycle transport
(every response carries only a glue A record, `serverA` referring to
`serverB` and every other server to `serverA`) the resolution loop never
returns: for every iteration budget, from every starting server, for every
queried name and type, the model still reports divergence. -/
theorem resolve_referral_cycle_diverges :
    ∀ fuel name t ns, resolveFuel cycleOracle fuel name t ns = .diverge := by
  intro fuel
  induction fuel with
  | zero => intro name t ns; rfl
  | succ n ih =>
    intro name t ns
    simp [resolveFuel, cycleOracle, gluePacket, glueRecord, DNSPacket.get_answer,
      DNSPacket.get_nameserver_record, ih]

/-- Counterexample for C1: on the referral cycle `resolve` has neither
returned an answer nor any error — in particular no `TooManyRedirections`
— after 100 loop iterations. -/
theorem resolve_referral_cycle_no_result :
    resolve cycleOracle 100 targetName .A = .diverge := by decide

/-- C4, amended: the resolver step returns the interpreted value of the
FIRST answer record of type A, regardless of the requested query type and
regardless of the record's owner name: neither is consulted by
`get_answer`. -/
theorem resolve_returns_first_A_answer
    (pkt : DNSPacket) (rec : DNSRecord) (ip : Ipv4) (name : DomainName)
    (t : TypeField) (ns : Ipv4) (fuel : Nat)
    (hans : pkt.get_answer = some rec)
    (hip : rec.ipv4.bind List.head? = some ip) :
    resolveFuel (fun _ _ _ => .ok pkt) (fuel + 1) name t ns = .ok ip := by
  simp [resolveFuel, hans, hip]

/-- Witness for C4's amended theorem: even under an AAAA query the loop
returns the first A record's address. -/
theorem resolve_returns_first_A_answer_witness :
    resolveFuel (fun _ _ _ => .ok mismatchPacket) 10 targetName .AAAA rootNameServer =
      .ok ⟨9, 9, 9, 9⟩ :=
  resolve_returns_first_A_answer mismatchPacket recOther ⟨9, 9, 9, 9⟩ targetName
    .AAAA rootNameServer 9 (by decide) (by decide)

/-- Counterexample for C4: the response holds an answer record of the
requested type (A) whose name equals the target, yet the resolver returns
the value `9.9.9.9` of the earlier A record whose name is different,
instead of that matching record's value `1.2.3.4`. -/
theorem get_answer_ignores_name_and_type :
    recTarget.type_field = .A ∧ recTarget.name = targetName ∧
    recOther.name ≠ targetName ∧
    mismatchPacket.answers = [recOther, recTarget] ∧
    resolve (fun _ _ _ => .ok mismatchPacket) 10 targetName .A = .ok ⟨9, 9, 9, 9⟩ ∧
    recTarget.ipv4 = some [⟨1, 2, 3, 4⟩] :=
  ⟨rfl, rfl, by decide, rfl, by decide, rfl⟩

theorem a_record_ipv4_length_aux :
    ∀ (k : Nat) (data : List Byte), data.length ≤ k →
      (a_record_ipv4 data).map List.length =
        if data.length % 4 = 0 then some (data.length / 4) else none := by
    intro k
    induction k with
    | zero =>
      intro data h
      match data with
      | [] => decide
      | _ :: _ => simp at h
    | succ k ih =>
      intro data h
      match data with
      | [] => decide
      | [c0] => simp [a_record_ipv4, chunks4, collectChunks, ipv4_addr_from_bytes]
      | [c0, c1] => simp [a_record_ipv4, chunks4, collectChunks, ipv4_addr_from_bytes]
      | [c0, c1, c2] => simp [a_record_ipv4, chunks4, collectChunks, ipv4_addr_from_bytes]
      | c0 :: c1 :: c2 :: c3 :: rest =>
        have hr : rest.length ≤ k := by simp at h; omega
        have hrec := ih rest hr
        simp only [a_record_ipv4, chunks4, collectChunks, ipv4_addr_from_bytes] at hrec ⊢
        rcases hcol : collectChunks ipv4_addr_from_bytes (chunks4 rest) with _ | l
        · rw [hcol] at hrec
          have hmod : rest.length % 4 ≠ 0 := by
            by_contra hc
            simp [hc] at hrec
          have hmod4 : ¬ (rest.length + 1 + 1 + 1 + 1) % 4 = 0 := by omega
          simp [hmod4]
        · rw [hcol] at hrec
          split at hrec
          · rename_i hmod
            have h1 : (rest.length + 1 + 1 + 1 + 1) % 4 = 0 := by omega
            have h2 : l.length = rest.length / 4 := by
              simpa using hrec
            simp [h1, h2, List.length_cons]
            omega
          · simp at hrec

theorem readExact_ok {c : Cursor} {k : Nat} {bs : List Byte} {c' : Cursor}
    (h : c.readExact k = .ok (bs, c')) :
    bs.length = k ∧ c' = ⟨c.data, c.pos + k⟩ ∧ bs = (c.data.drop c.pos).take k := by
  unfold Cursor.readExact at h
  split at h
  · rename_i hle
    cases h
    refine ⟨?_, rfl, rfl⟩
    simp [List.length_take, List.length_drop]
    omega
  · exact Except.noConfusion h

theorem TypeField.type_from_reader_ok {c : Cursor} {t : TypeField} {c' : Cursor}
    (h : TypeField.from_reader c = .ok (t, c')) : c' = ⟨c.data, c.pos + 2⟩ := by
  unfold TypeField.from_reader at h
  split at h
  · exact Outcome.noConfusion h
  · rename_i bs c2 heq
    split at h
    · cases h
      exact (readExact_ok heq).2.1
    · exact Outcome.noConfusion h

theorem ClassField.class_from_reader_ok {c : Cursor} {cl : ClassField} {c' : Cursor}
    (h : ClassField.from_reader c = .ok (cl, c')) : c' = ⟨c.data, c.pos + 2⟩ := by
  unfold ClassField.from_reader at h
  split at h
  · exact Outcome.noConfusion h
  · rename_i bs c2 heq
    split at h
    · cases h
      exact (readExact_ok heq).2.1
    · exact Outcome.noConfusion h

/-- The label loop never changes the underlying buffer of the cursor it
returns. -/
theorem nameIter_ok_data (jump : Cursor → Outcome (List Byte × Cursor)) :
    ∀ iter c parts c', nameIter jump iter c = .ok (parts, c') → c'.data = c.data := by
  intro iter
  induction iter with
  | zero => intro inC parts c' h; exact Outcome.noConfusion h
  | succ n ih =>
    intro inC parts c' h
    simp only [nameIter] at h
    split at h
    · split at h
      · split at h
        · split at h
          · cases h; rfl
          · exact Outcome.noConfusion h
          · exact Outcome.noConfusion h
          · exact Outcome.noConfusion h
        · exact Outcome.noConfusion h
      · split at h
        · split at h
          · split at h
            · rename_i heq
              cases h
              have hd := ih _ _ _ heq
              simpa using hd
            · exact Outcome.noConfusion h
            · exact Outcome.noConfusion h
            · exact Outcome.noConfusion h
          · exact Outcome.noConfusion h
        · cases h; rfl
    · exact Outcome.noConfusion h

/-- `DomainName::from_reader` never changes the underlying buffer. -/
theorem DomainName.from_reader_ok_data {fuel : Nat} {c : Cursor} {nm : DomainName}
    {c' : Cursor} (h : DomainName.from_reader fuel c = .ok (nm, c')) :
    c'.data = c.data := by
  match fuel with
  | 0 => exact Outcome.noConfusion h
  | fuel + 1 =>
    unfold DomainName.from_reader DomainName.bytes_from_reader at h
    split at h
    · rename_i parts c2 heq
      split at heq
      · rename_i parts2 c3 heq2
        cases heq
        cases h
        have hd := nameIter_ok_data _ _ _ _ _ heq2
        simpa using hd
      · exact Outcome.noConfusion heq
      · exact Outcome.noConfusion heq
      · exact Outcome.noConfusion heq
    · exact Outcome.noConfusion h
    · exact Outcome.noConfusion h
    · exact Outcome.noConfusion h

theorem from_reader_ok_dissect {fuel : Nat} {c : Cursor} {rec : DNSRecord} {c' : Cursor}
    (h : DNSRecord.from_reader fuel c = .ok (rec, c')) :
    ∃ nm nmc, DomainName.from_reader fuel c = .ok (nm, nmc) ∧ nm = rec.name ∧
      (rec.type_field = .A → ∃ v, a_record_ipv4 rec.data = some v ∧ rec.ipv4 = some v) ∧
      (rec.type_field ≠ .NS → c' = ⟨c.data, nmc.pos + 10 + rec.data.length⟩) := by
  simp only [DNSRecord.from_reader] at h
  split at h
  · exact Outcome.noConfusion h
  · exact Outcome.noConfusion h
  · exact Outcome.noConfusion h
  rename_i name c1 hname
  split at h
  · exact Outcome.noConfusion h
  · exact Outcome.noConfusion h
  · exact Outcome.noConfusion h
  rename_i type_field c2 htype
  split at h
  · exact Outcome.noConfusion h
  · exact Outcome.noConfusion h
  · exact Outcome.noConfusion h
  rename_i class_field c3 hclass
  split at h
  · exact Outcome.noConfusion h
  rename_i ttl_bytes c4 httl
  split at h
  · exact Outcome.noConfusion h
  rename_i data_len_bytes c5 hlen
  split at h
  · exact Outcome.noConfusion h
  rename_i data c6 hdata
  split at h
  · exact Outcome.noConfusion h
  · exact Outcome.noConfusion h
  · exact Outcome.noConfusion h
  rename_i ns_name cAfter hns
  split at h
  · exact Outcome.noConfusion h
  · exact Outcome.noConfusion h
  · exact Outcome.noConfusion h
  rename_i ipv4v hipv4
  split at h
  · exact Outcome.noConfusion h
  · exact Outcome.noConfusion h
  · exact Outcome.noConfusion h
  rename_i ipv6v hipv6
  cases h
  refine ⟨name, c1, hname, rfl, ?_, ?_⟩
  · intro hA
    simp only at hA
    subst hA
    rcases ha : a_record_ipv4 data with _ | v
    · simp only [ha] at hipv4
      exact Outcome.noConfusion hipv4
    · simp only [ha] at hipv4
      cases hipv4
      exact ⟨v, rfl, rfl⟩
  · intro hNS
    simp only at hNS
    rw [if_neg hNS] at hns
    cases hns
    obtain ⟨hdlen, hc6, -⟩ := readExact_ok hdata
    obtain ⟨-, hc5, -⟩ := readExact_ok hlen
    obtain ⟨-, hc4, -⟩ := readExact_ok httl
    have hc3 := ClassField.class_from_reader_ok hclass
    have hc2 := TypeField.type_from_reader_ok htype
    have hc1d : c1.data = c.data := DomainName.from_reader_ok_data hname
    subst hc2 hc3 hc4 hc5
    rw [hc6]
    simp only [Cursor.mk.injEq]
    constructor
    · simpa using hc1d
    · omega

/-- C6, amended: for a type-A record the decoder interprets RDATA as its
4-byte chunks — `RDLENGTH / 4` addresses whenever RDLENGTH is a multiple of
4 (zero addresses for 0, one for 4, several for larger multiples), and for
every other RDLENGTH the ragged final chunk makes the Rust code panic with
an index out of bounds (modelled by `a_record_ipv4` returning `none`); no
`InvalidFormat` error exists on this path. -/
theorem a_record_chunk_interpretation :
    (∀ data : List Byte, (a_record_ipv4 data).map List.length =
        if data.length % 4 = 0 then some (data.length / 4) else none) ∧
    (∀ fuel c rec c', DNSRecord.from_reader fuel c = .ok (rec, c') →
        rec.type_field = .A →
        ∃ v, rec.ipv4 = some v ∧ v.length = rec.data.length / 4 ∧
          rec.data.length % 4 = 0) := by
  constructor
  · intro data
    exact a_record_ipv4_length_aux data.length data le_rfl
  · intro fuel c rec c' h hA
    obtain ⟨nm, nmc, -, -, hAc, -⟩ := from_reader_ok_dissect h
    obtain ⟨v, hv, hip⟩ := hAc hA
    have hlen := a_record_ipv4_length_aux rec.data.length rec.data le_rfl
    rw [hv] at hlen
    split at hlen
    · rename_i hmod
      refine ⟨v, hip, ?_, hmod⟩
      simpa using hlen
    · simp at hlen

/-- Witness for C6's amended theorem: decoding a type-A record whose
RDLENGTH is 8 yields two interpreted addresses. -/
theorem a_record_chunk_interpretation_witness :
    ∃ v, (DNSRecord.mk ⟨[]⟩ .A .IN 0 [1, 2, 3, 4, 5, 6, 7, 8]
        (some [⟨1, 2, 3, 4⟩, ⟨5, 6, 7, 8⟩]) none none).ipv4 = some v ∧
      v.length = (DNSRecord.mk ⟨[]⟩ .A .IN 0 [1, 2, 3, 4, 5, 6, 7, 8]
        (some [⟨1, 2, 3, 4⟩, ⟨5, 6, 7, 8⟩]) none none).data.length / 4 ∧
      (DNSRecord.mk ⟨[]⟩ .A .IN 0 [1, 2, 3, 4, 5, 6, 7, 8]
        (some [⟨1, 2, 3, 4⟩, ⟨5, 6, 7, 8⟩]) none none).data.length % 4 = 0 :=
  a_record_chunk_interpretation.2 10
    ⟨[0, 0, 1, 0, 1, 0, 0, 0, 0, 0, 8, 1, 2, 3, 4, 5, 6, 7, 8], 0⟩
    (DNSRecord.mk ⟨[]⟩ .A .IN 0 [1, 2, 3, 4, 5, 6, 7, 8]
      (some [⟨1, 2, 3, 4⟩, ⟨5, 6, 7, 8⟩]) none none)
    ⟨[0, 0, 1, 0, 1, 0, 0, 0, 0, 0, 8, 1, 2, 3, 4, 5, 6, 7, 8], 19⟩
    (by decide) rfl

/-- Counterexample for C6: a type-A record with RDLENGTH 8 decodes
successfully into TWO interpreted IPv4 addresses — not an `InvalidFormat`
failure as the claim requires for any RDLENGTH other than 4. -/
theorem a_record_rdlength8_two_addresses :
    DNSRecord.from_reader 10 ⟨[0, 0, 1, 0, 1, 0, 0, 0, 0, 0, 8, 1, 2, 3, 4, 5, 6, 7, 8], 0⟩ =
      .ok (⟨⟨[]⟩, .A, .IN, 0, [1, 2, 3, 4, 5, 6, 7, 8],
          some [⟨1, 2, 3, 4⟩, ⟨5, 6, 7, 8⟩], none, none⟩,
        ⟨[0, 0, 1, 0, 1, 0, 0, 0, 0, 0, 8, 1, 2, 3, 4, 5, 6, 7, 8], 19⟩) := by decide

/-- C7, amended: for every successfully decoded record whose type is NOT
NS, the final cursor sits exactly RDLENGTH (= `rec.data.length`) bytes past
the RDATA start (which is 10 bytes past the end of the owner name: type,
class, TTL and RDLENGTH).  For NS records the cursor is instead left
wherever the re-parse of the nameserver name ends, which can differ from
the RDATA end. -/
theorem record_cursor_exact_rdlength_unless_ns :
    ∀ fuel c rec c', DNSRecord.from_reader fuel c = .ok (rec, c') →
      rec.type_field ≠ .NS →
      ∃ nm nmc, DomainName.from_reader fuel c = .ok (nm, nmc) ∧ nm = rec.name ∧
        c' = ⟨c.data, nmc.pos + 10 + rec.data.length⟩ := by
  intro fuel c rec c' h hns
  obtain ⟨nm, nmc, h1, h2, -, h4⟩ := from_reader_ok_dissect h
  exact ⟨nm, nmc, h1, h2, h4 hns⟩

/-- Witness for C7's amended theorem on a concrete A record. -/
theorem record_cursor_exact_rdlength_unless_ns_witness :
    ∃ nm nmc, DomainName.from_reader 10 ⟨[0, 0, 1, 0, 1, 0, 0, 0, 1, 0, 4, 9, 9, 9, 9], 0⟩ =
        .ok (nm, nmc) ∧
      nm = (DNSRecord.mk ⟨[]⟩ .A .IN 1 [9, 9, 9, 9] (some [⟨9, 9, 9, 9⟩]) none none).name ∧
      (⟨[0, 0, 1, 0, 1, 0, 0, 0, 1, 0, 4, 9, 9, 9, 9], 15⟩ : Cursor) =
        ⟨[0, 0, 1, 0, 1, 0, 0, 0, 1, 0, 4, 9, 9, 9, 9],
          nmc.pos + 10 + (DNSRecord.mk ⟨[]⟩ .A .IN 1 [9, 9, 9, 9]
            (some [⟨9, 9, 9, 9⟩]) none none).data.length⟩ :=
  record_cursor_exact_rdlength_unless_ns 10 ⟨[0, 0, 1, 0, 1, 0, 0, 0, 1, 0, 4, 9, 9, 9, 9], 0⟩
    (DNSRecord.mk ⟨[]⟩ .A .IN 1 [9, 9, 9, 9] (some [⟨9, 9, 9, 9⟩]) none none)
    ⟨[0, 0, 1, 0, 1, 0, 0, 0, 1, 0, 4, 9, 9, 9, 9], 15⟩ (by decide) (by decide)

/-- Counterexample for C7: an NS record declaring RDLENGTH 5 whose RDATA
starts (at offset 11) with the 3-byte name `"a"` followed by two trailing
bytes: the decoder leaves the cursor at offset 14 — the end of the
re-parsed name — and not at offset 16 = RDATA start + RDLENGTH, so the
consumed RDATA bytes (3) differ from the declared RDLENGTH (5). -/
theorem ns_record_cursor_mismatch :
    DNSRecord.from_reader 10 ⟨[0, 0, 2, 0, 1, 0, 0, 0, 0, 0, 5, 1, 97, 0, 99, 99], 0⟩ =
      .ok (⟨⟨[]⟩, .NS, .IN, 0, [1, 97, 0, 99, 99], none, none, some ⟨[97]⟩⟩,
        ⟨[0, 0, 2, 0, 1, 0, 0, 0, 0, 0, 5, 1, 97, 0, 99, 99], 14⟩) ∧
    (14 : Nat) ≠ 11 + 5 :=
  ⟨by decide, by decide⟩

/-- A record found by `get_answer` has type A. -/
theorem get_answer_type {p : DNSPacket} {r : DNSRecord}
    (h : p.get_answer = some r) : r.type_field = .A := by
  have := List.find?_some h
  simpa using this

/-- Scrubbing the IPv6 payloads commutes with the three record lookups. -/
theorem find_A_map_scrub (l : List DNSRecord) :
    (l.map scrubRecordIpv6).find? (fun x => decide (x.type_field = TypeField.A)) =
      (l.find? (fun x => decide (x.type_field = TypeField.A))).map scrubRecordIpv6 := by
  induction l with
  | nil => rfl
  | cons r rs ih =>
    by_cases hr : r.type_field = TypeField.A
    · simp [List.find?, scrubRecordIpv6, hr]
    · simp [List.find?, scrubRecordIpv6, hr, ih]

theorem find_NS_map_scrub (l : List DNSRecord) :
    (l.map scrubRecordIpv6).find? (fun x => decide (x.type_field = TypeField.NS)) =
      (l.find? (fun x => decide (x.type_field = TypeField.NS))).map scrubRecordIpv6 := by
  induction l with
  | nil => rfl
  | cons r rs ih =>
    by_cases hr : r.type_field = TypeField.NS
    · simp [List.find?, scrubRecordIpv6, hr]
    · simp [List.find?, scrubRecordIpv6, hr, ih]

/-- C10: (1) whenever the resolution loop succeeds, the returned value is
an IPv4 address obtained as the first entry of the interpreted `ipv4` list
of a type-A answer record of some transport response — for every requested
query type, including AAAA; (2) the loop's result is unchanged when the
interpreted IPv6 payloads of all records of every response are erased: the
`ipv6` field is never consulted. -/
theorem resolve_only_ipv4 :
    (∀ oracle fuel name t ns ip,
      resolveFuel oracle fuel name t ns = .ok ip →
      ∃ ns' nm' t' pkt rec, oracle ns' nm' t' = .ok pkt ∧
        pkt.get_answer = some rec ∧ rec.type_field = .A ∧
        ∃ l, rec.ipv4 = some l ∧ l.head? = some ip) ∧
    (∀ oracle fuel name t ns,
      resolveFuel (scrubOracleIpv6 oracle) fuel name t ns =
        resolveFuel oracle fuel name t ns) := by
  constructor
  · intro oracle fuel
    induction fuel with
    | zero => intro name t ns ip h; exact Outcome.noConfusion h
    | succ n ih =>
      intro name t ns ip h
      simp only [resolveFuel] at h
      split at h
      · exact Outcome.noConfusion h
      rename_i pkt hor
      split at h
      · rename_i answer hans
        split at h
        · rename_i ip' hip
          cases h
          refine ⟨ns, name, t, pkt, answer, hor, hans, get_answer_type hans, ?_⟩
          rcases hl : answer.ipv4 with _ | l
          · rw [hl] at hip; simp at hip
          · rw [hl] at hip
            exact ⟨l, rfl, by simpa using hip⟩
        · exact ih _ _ _ _ h
      · split at h
        · exact ih _ _ _ _ h
        · split at h
          · split at h
            · exact ih _ _ _ _ h
            · exact Outcome.noConfusion h
            · exact Outcome.noConfusion h
            · exact Outcome.noConfusion h
          · exact Outcome.noConfusion h
  · intro oracle fuel
    induction fuel with
    | zero => intro name t ns; rfl
    | succ n ih =>
      intro name t ns
      rcases hor : oracle ns name t with e | pkt
      · simp only [resolveFuel, scrubOracleIpv6, hor]
      · simp only [resolveFuel, scrubOracleIpv6, hor]
        have hga : (scrubPacketIpv6 pkt).get_answer =
            pkt.get_answer.map scrubRecordIpv6 := find_A_map_scrub pkt.answers
        have hgn : (scrubPacketIpv6 pkt).get_nameserver_record =
            pkt.get_nameserver_record.map scrubRecordIpv6 := find_A_map_scrub pkt.additionals
        have hgs : (scrubPacketIpv6 pkt).get_nameserver =
            pkt.get_nameserver.map scrubRecordIpv6 := find_NS_map_scrub pkt.authorities
        have hip4 : ∀ r, (scrubRecordIpv6 r).ipv4 = r.ipv4 := fun _ => rfl
        have hnsn : ∀ r, (scrubRecordIpv6 r).ns_name = r.ns_name := fun _ => rfl
        rw [hga, hgn, hgs]
        cases pkt.get_answer <;> cases pkt.get_nameserver_record <;>
          cases pkt.get_nameserver <;>
          simp only [Option.map_none, Option.map_some, Option.map_none',
            Option.map_some', Option.none_bind, Option.some_bind, hip4, hnsn, ih]

/-- Witness for C10's first conjunct at a concrete transport. -/
theorem resolve_only_ipv4_witness :
    ∃ ns' nm' t' pkt rec,
      (fun (_ : Ipv4) (_ : DomainName) (_ : TypeField) =>
        (Except.ok mismatchPacket : Except IOErr DNSPacket)) ns' nm' t' = .ok pkt ∧
      pkt.get_answer = some rec ∧ rec.type_field = .A ∧
      ∃ l, rec.ipv4 = some l ∧ l.head? = some ⟨9, 9, 9, 9⟩ :=
  resolve_only_ipv4.1 (fun _ _ _ => .ok mismatchPacket) 1 targetName .AAAA
    rootNameServer ⟨9, 9, 9, 9⟩ (by decide)

/-- Reading exactly the middle section of a three-part buffer. -/
theorem readExact_append (pre mid rest : List Byte) (k : Nat) (hk : mid.length = k) :
    Cursor.readExact ⟨pre ++ mid ++ rest, pre.length⟩ k =
      .ok (mid, ⟨pre ++ mid ++ rest, pre.length + k⟩) := by
  unfold Cursor.readExact
  have hle : pre.length + k ≤ (pre ++ mid ++ rest).length := by
    simp [List.length_append]
    omega
  rw [if_pos hle]
  have hdrop : (pre ++ mid ++ rest).drop pre.length = mid ++ rest := by
    rw [List.append_assoc]
    exact List.drop_left pre (mid ++ rest)
  rw [hdrop, ← hk, List.take_left]

/-- The byte at the junction of a three-part buffer. -/
theorem getD_append_exact (pre : List Byte) (b : Byte) (rest : List Byte) :
    (pre ++ b :: rest).getD pre.length 0 = b := by
  rw [List.getD_append_right _ _ _ _ le_rfl]
  simp

/-- Labels of at most 63 octets never look like compression pointers. -/
theorem land192_of_le63 : ∀ n : Nat, n ≤ 63 → n &&& 192 = 0 := by decide

/-- `splitDot` never returns the empty list of parts. -/
theorem splitDot_ne_nil (s : List Byte) : splitDot s ≠ [] := by
  cases s with
  | nil => simp [splitDot]
  | cons b bs =>
    simp only [splitDot]
    split
    · simp
    · split
      · simp
      · simp

/-- Joining with dots undoes splitting on dots. -/
theorem joinDot_splitDot (s : List Byte) : joinDot (splitDot s) = s := by
  induction s with
  | nil => rfl
  | cons b bs ih =>
    by_cases hb : b = 46
    · subst hb
      simp only [splitDot, if_pos rfl]
      rcases hsp : splitDot bs with _ | ⟨part, parts⟩
      · exact absurd hsp (splitDot_ne_nil bs)
      · rw [hsp] at ih
        simpa [joinDot] using ih
    · simp only [splitDot, if_neg hb]
      rcases hsp : splitDot bs with _ | ⟨part, parts⟩
      · exact absurd hsp (splitDot_ne_nil bs)
      · rw [hsp] at ih
        cases parts with
        | nil => simpa [joinDot] using ih
        | cons q qs => simpa [joinDot] using ih

/-- Every part contributes at least one byte to `encodeParts`. -/
theorem length_le_encodeParts (parts : List (List Byte)) :
    parts.length ≤ (encodeParts parts).length := by
  induction parts with
  | nil => simp [encodeParts]
  | cons p ps ih =>
    simp only [encodeParts, List.map_cons, List.flatten_cons, List.length_append,
      List.length_cons, List.length_map] at ih ⊢
    omega

/-- One loop step on a zero length byte: end of name, cursor past it. -/
theorem nameIter_step_zero (jump : Cursor → Outcome (List Byte × Cursor))
    (it : Nat) (pre rest : List Byte) :
    nameIter jump (it + 1) ⟨pre ++ 0 :: rest, pre.length⟩ =
      .ok ([], ⟨pre ++ 0 :: rest, pre.length + 1⟩) := by
  have hpos : pre.length < (pre ++ 0 :: rest).length := by
    simp [List.length_append]
  simp only [nameIter]
  rw [getD_append_exact]
  rw [if_pos hpos, if_neg (by decide : ¬ ((0 : Nat) &&& 192 ≠ 0)),
    if_neg (by decide : ¬ (0 : Nat) < 0)]

/-- One loop step on a literal label of 1-63 octets: push the label and
continue just past it. -/
theorem nameIter_step_label (jump : Cursor → Outcome (List Byte × Cursor))
    (it : Nat) (pre tail p : List Byte) (h1 : 0 < p.length) (h63 : p.length ≤ 63) :
    nameIter jump (it + 1) ⟨pre ++ p.length :: (p ++ tail), pre.length⟩ =
      match nameIter jump it ⟨pre ++ p.length :: (p ++ tail), pre.length + 1 + p.length⟩ with
      | .ok (parts, c') => .ok (p :: parts, c')
      | .error e => .error e
      | .panic => .panic
      | .diverge => .diverge := by
  have hpos : pre.length < (pre ++ p.length :: (p ++ tail)).length := by
    simp [List.length_append]
  have hbound : pre.length + 1 + p.length ≤ (pre ++ p.length :: (p ++ tail)).length := by
    simp [List.length_append]
    omega
  have hland : ¬ (p.length &&& 192 ≠ 0) := by
    simp [land192_of_le63 p.length h63]
  have hdrop : (pre ++ p.length :: (p ++ tail)).drop (pre.length + 1) = p ++ tail := by
    have hsh : pre ++ p.length :: (p ++ tail) = (pre ++ [p.length]) ++ (p ++ tail) := by
      simp
    have hl : pre.length + 1 = (pre ++ [p.length]).length := by simp
    rw [hsh, hl]
    exact List.drop_left _ _
  simp only [nameIter]
  rw [getD_append_exact]
  rw [if_pos hpos, if_neg hland, if_pos h1, if_pos hbound, hdrop, List.take_left]

/-- Parsing the label-sequence encoding of well-formed parts consumes it
exactly and returns the parts, for any sufficient iteration budget; the
jump continuation is never invoked because no label looks compressed. -/
theorem nameIter_encodeParts (jump : Cursor → Outcome (List Byte × Cursor)) :
    ∀ (parts : List (List Byte)) (iter : Nat) (pre rest : List Byte),
      (∀ p ∈ parts, 1 ≤ p.length ∧ p.length ≤ 63) →
      parts.length + 1 ≤ iter →
      nameIter jump iter ⟨pre ++ (encodeParts parts ++ [0]) ++ rest, pre.length⟩ =
        .ok (parts, ⟨pre ++ (encodeParts parts ++ [0]) ++ rest,
          pre.length + (encodeParts parts).length + 1⟩) := by
  intro parts
  induction parts with
  | nil =>
    intro iter pre rest hp hiter
    match iter, hiter with
    | it + 1, _ =>
      have hbuf : pre ++ (encodeParts [] ++ [0]) ++ rest = pre ++ 0 :: rest := by
        simp [encodeParts]
      rw [hbuf]
      rw [nameIter_step_zero]
      simp [encodeParts]
  | cons p ps ih =>
    intro iter pre rest hp hiter
    match iter, hiter with
    | it + 1, hiter =>
      have hpl := hp p (List.mem_cons_self p ps)
      have hmod : p.length % 256 = p.length := Nat.mod_eq_of_lt (by omega)
      have hbuf : pre ++ (encodeParts (p :: ps) ++ [0]) ++ rest =
          pre ++ p.length :: (p ++ ((encodeParts ps ++ [0]) ++ rest)) := by
        simp [encodeParts, hmod]
      rw [hbuf]
      rw [nameIter_step_label jump it pre _ p hpl.1 hpl.2]
      have hre : pre ++ p.length :: (p ++ ((encodeParts ps ++ [0]) ++ rest)) =
          (pre ++ p.length :: p) ++ (encodeParts ps ++ [0]) ++ rest := by simp
      have hlen' : (pre ++ p.length :: p).length = pre.length + 1 + p.length := by
        simp [List.length_append]
        omega
      have hrec := ih it (pre ++ p.length :: p) rest
        (fun q hq => hp q (List.mem_cons_of_mem p hq)) (by simpa using hiter)
      rw [hlen'] at hrec
      rw [← hre] at hrec
      rw [hrec]
      have hcur : pre.length + 1 + p.length + (encodeParts ps).length + 1 =
          pre.length + (encodeParts (p :: ps)).length + 1 := by
        simp [encodeParts, List.length_append, hmod]
        omega
      rw [hcur]

/-- Decoding the encoding of a well-formed domain name consumes it exactly
and returns the name, for any positive jump budget. -/
theorem DomainName.encoding_parses_name (nm : DomainName) (h : wfName nm) (fuel : Nat) :
    ParsesTo (DomainName.from_reader (fuel + 1)) nm.to_bytes nm := by
  intro pre rest
  have hshape : nm.to_bytes = encodeParts (splitDot nm.string) ++ [0] := rfl
  have hiter : (splitDot nm.string).length + 1 ≤ (pre ++ nm.to_bytes ++ rest).length + 1 := by
    have h1 := length_le_encodeParts (splitDot nm.string)
    have h2 : nm.to_bytes.length = (encodeParts (splitDot nm.string)).length + 1 := by
      rw [hshape]; simp
    simp [List.length_append]
    omega
  have hmain := nameIter_encodeParts (fun c' => DomainName.bytes_from_reader fuel c')
    (splitDot nm.string) ((pre ++ nm.to_bytes ++ rest).length + 1) pre rest h hiter
  rw [show pre ++ (encodeParts (splitDot nm.string) ++ [0]) ++ rest =
      pre ++ nm.to_bytes ++ rest from by rw [hshape]] at hmain
  unfold DomainName.from_reader
  simp only [DomainName.bytes_from_reader]
  rw [hmain]
  have hjoin : joinDot (splitDot nm.string) = nm.string := joinDot_splitDot nm.string
  have hlen : pre.length + (encodeParts (splitDot nm.string)).length + 1 =
      pre.length + nm.to_bytes.length := by
    rw [hshape]
    simp
    omega
  simp only [hjoin, hlen]

/-- The TYPE codes fit in 16 bits. -/
theorem TypeField.type_code_lt (t : TypeField) : t.code < 65536 := by cases t <;> decide

/-- The closed numeric lookup undoes the discriminant. -/
theorem TypeField.type_fromNum_code (t : TypeField) : TypeField.fromNum t.code = .ok t := by
  cases t <;> rfl

/-- Decoding the two TYPE bytes returns the variant and advances by two. -/
theorem TypeField.encoding_parses_type (t : TypeField) :
    ParsesTo TypeField.from_reader t.to_be_bytes t := by
  intro pre rest
  unfold TypeField.from_reader
  rw [readExact_append pre t.to_be_bytes rest 2 (by cases t <;> rfl)]
  have hbe : be16 (t.to_be_bytes.getD 0 0) (t.to_be_bytes.getD 1 0) = t.code := by
    show be16 (t.code / 256 % 256) (t.code % 256) = t.code
    have := TypeField.type_code_lt t
    unfold be16
    omega
  have hl : t.to_be_bytes.length = 2 := by cases t <;> rfl
  simp only [hbe, TypeField.type_fromNum_code, hl]

/-- The CLASS codes fit in 16 bits. -/
theorem ClassField.class_code_lt (cl : ClassField) : cl.code < 65536 := by cases cl <;> decide

theorem ClassField.class_fromNum_code (cl : ClassField) : ClassField.fromNum cl.code = .ok cl := by
  cases cl <;> rfl

theorem ClassField.encoding_parses_class (cl : ClassField) :
    ParsesTo ClassField.from_reader cl.to_be_bytes cl := by
  intro pre rest
  unfold ClassField.from_reader
  rw [readExact_append pre cl.to_be_bytes rest 2 (by cases cl <;> rfl)]
  have hbe : be16 (cl.to_be_bytes.getD 0 0) (cl.to_be_bytes.getD 1 0) = cl.code := by
    show be16 (cl.code / 256 % 256) (cl.code % 256) = cl.code
    have := ClassField.class_code_lt cl
    unfold be16
    omega
  have hl : cl.to_be_bytes.length = 2 := by cases cl <;> rfl
  simp only [hbe, ClassField.class_fromNum_code, hl]

/-- Decoding twelve header bytes undoes the header encoding. -/
theorem DNSHeader.from_bytes_to_bytes (h : DNSHeader) (hwf : wfHeader h) :
    DNSHeader.from_bytes h.to_bytes = h := by
  obtain ⟨h1, h2, h3, h4, h5, h6⟩ := hwf
  cases h with
  | mk id flags nq na nauth nadd =>
    simp only [DNSHeader.to_bytes, u16ToBytes] at *
    simp only [DNSHeader.from_bytes, List.cons_append, List.nil_append]
    simp only [List.getD_cons_zero, List.getD_cons_succ]
    unfold be16
    simp only [DNSHeader.mk.injEq]
    refine ⟨?_, ?_, ?_, ?_, ?_, ?_⟩ <;> omega

/-- Decoding the header encoding from a stream reads exactly twelve bytes. -/
theorem DNSHeader.to_bytes_parses (h : DNSHeader) (hwf : wfHeader h) :
    ParsesTo DNSHeader.from_reader h.to_bytes h := by
  intro pre rest
  unfold DNSHeader.from_reader
  rw [readExact_append pre h.to_bytes rest 12 (by simp [DNSHeader.to_bytes, u16ToBytes])]
  have hl : h.to_bytes.length = 12 := by simp [DNSHeader.to_bytes, u16ToBytes]
  simp only [DNSHeader.from_bytes_to_bytes h hwf, hl]

theorem u32_getD_be32 (n : Nat) (h : n < 4294967296) :
    be32 ((u32ToBytes n).getD 0 0) ((u32ToBytes n).getD 1 0)
      ((u32ToBytes n).getD 2 0) ((u32ToBytes n).getD 3 0) = n := by
  show be32 (n / 16777216 % 256) (n / 65536 % 256) (n / 256 % 256) (n % 256) = n
  unfold be32
  omega

theorem u16_getD_be16 (n : Nat) (h : n < 65536) :
    be16 ((u16ToBytes n).getD 0 0) ((u16ToBytes n).getD 1 0) = n := by
  show be16 (n / 256 % 256) (n % 256) = n
  unfold be16
  omega

theorem DNSRecord.encoding_parses_record (r : DNSRecord) (hwf : wfRecord r) (fuel : Nat) :
    ParsesTo (DNSRecord.from_reader (fuel + 1)) r.to_bytes r := by
  obtain ⟨hn, httlw, hdlw, hA, hnA, hA6, hnA6, hNS, hnNS⟩ := hwf
  intro pre rest
  have hl2 : r.type_field.to_be_bytes.length = 2 := by cases r.type_field <;> rfl
  have hl3 : r.class_field.to_be_bytes.length = 2 := by cases r.class_field <;> rfl
  have h1 := DomainName.encoding_parses_name r.name hn fuel pre
    (r.type_field.to_be_bytes ++ (r.class_field.to_be_bytes ++ (u32ToBytes r.ttl ++
      (u16ToBytes r.data.length ++ (r.data ++ rest)))))
  have h2 := TypeField.encoding_parses_type r.type_field (pre ++ r.name.to_bytes)
    (r.class_field.to_be_bytes ++ (u32ToBytes r.ttl ++
      (u16ToBytes r.data.length ++ (r.data ++ rest))))
  have h3 := ClassField.encoding_parses_class r.class_field
    (pre ++ r.name.to_bytes ++ r.type_field.to_be_bytes)
    (u32ToBytes r.ttl ++ (u16ToBytes r.data.length ++ (r.data ++ rest)))
  have h4 := readExact_append
    (pre ++ r.name.to_bytes ++ r.type_field.to_be_bytes ++ r.class_field.to_be_bytes)
    (u32ToBytes r.ttl) (u16ToBytes r.data.length ++ (r.data ++ rest)) 4 rfl
  have h5 := readExact_append
    (pre ++ r.name.to_bytes ++ r.type_field.to_be_bytes ++ r.class_field.to_be_bytes ++
      u32ToBytes r.ttl)
    (u16ToBytes r.data.length) (r.data ++ rest) 2 rfl
  have h6 := readExact_append
    (pre ++ r.name.to_bytes ++ r.type_field.to_be_bytes ++ r.class_field.to_be_bytes ++
      u32ToBytes r.ttl ++ u16ToBytes r.data.length)
    r.data rest r.data.length rfl
  simp only [List.append_assoc, List.length_append, hl2, hl3, List.length_nil,
    List.length_cons, u16ToBytes, u32ToBytes, List.length_singleton, Nat.add_assoc, Nat.reduceAdd]
    at h1 h2 h3 h4 h5 h6
  unfold DNSRecord.from_reader
  simp only [DNSRecord.to_bytes, List.append_assoc, List.length_append, hl2, hl3,
    List.length_nil, List.length_cons, u16ToBytes, u32ToBytes, List.length_singleton,
    Nat.add_assoc, Nat.reduceAdd]
  rw [h1]
  simp only [Nat.add_assoc, Nat.reduceAdd, h2, h3, h4, h5, List.getD_cons_zero,
    List.getD_cons_succ]
  have hbe16d : be16 (r.data.length / 256 % 256) (r.data.length % 256) = r.data.length := by
    unfold be16
    omega
  simp only [hbe16d, h6]
  have hbe32t : be32 (r.ttl / 16777216 % 256) (r.ttl / 65536 % 256) (r.ttl / 256 % 256)
      (r.ttl % 256) = r.ttl := by
    unfold be32
    omega
  simp only [hbe32t]
  have harith : 2 + (2 + (4 + (2 + r.data.length))) = 10 + r.data.length := by omega
  rw [harith]
  by_cases hNSt : r.type_field = TypeField.NS
  · obtain ⟨hsome, hwfnm, hdata⟩ := hNS hNSt
    rcases hnmx : r.ns_name with _ | nm
    · rw [hnmx] at hsome
      simp at hsome
    · rw [hnmx] at hwfnm hdata
      simp only [Option.getD_some] at hwfnm hdata
      have h7 := DomainName.encoding_parses_name nm hwfnm fuel
        (pre ++ r.name.to_bytes ++ r.type_field.to_be_bytes ++ r.class_field.to_be_bytes ++
          u32ToBytes r.ttl ++ u16ToBytes r.data.length) rest
      rw [← hdata] at h7
      simp only [List.append_assoc, List.length_append, hl2, hl3, List.length_nil,
        List.length_cons, u16ToBytes, u32ToBytes, List.length_singleton, Nat.add_assoc,
        Nat.reduceAdd] at h7
      rw [if_pos hNSt, h7]
      simp only [hNSt]
      have hv4 : r.ipv4 = none := hnA (by simp [hNSt])
      have hv6 : r.ipv6 = none := hnA6 (by simp [hNSt])
      rw [← hv4, ← hv6, ← hnmx, ← hNSt]
  · rw [if_neg hNSt]
    have hns0 : r.ns_name = none := hnNS hNSt
    rcases htf : r.type_field
    · obtain ⟨hsomeA, hipA⟩ := hA htf
      rcases hx : a_record_ipv4 r.data with _ | v
      · rw [hx] at hsomeA
        simp at hsomeA
      · simp only [htf, hx]
        have hv6 := hnA6 (by simp [htf])
        have hv4 : r.ipv4 = some v := by rw [hipA, hx]
        rw [← hv6, ← hns0, ← hv4, ← htf]
    · exact absurd htf hNSt
    · simp only [htf]
      rw [← hnA (by simp [htf]), ← hnA6 (by simp [htf]), ← hns0, ← htf]
    · simp only [htf]
      rw [← hnA (by simp [htf]), ← hnA6 (by simp [htf]), ← hns0, ← htf]
    · simp only [htf]
      rw [← hnA (by simp [htf]), ← hnA6 (by simp [htf]), ← hns0, ← htf]
    · simp only [htf]
      rw [← hnA (by simp [htf]), ← hnA6 (by simp [htf]), ← hns0, ← htf]
    · simp only [htf]
      rw [← hnA (by simp [htf]), ← hnA6 (by simp [htf]), ← hns0, ← htf]
    · simp only [htf]
      rw [← hnA (by simp [htf]), ← hnA6 (by simp [htf]), ← hns0, ← htf]
    · simp only [htf]
      rw [← hnA (by simp [htf]), ← hnA6 (by simp [htf]), ← hns0, ← htf]
    · simp only [htf]
      rw [← hnA (by simp [htf]), ← hnA6 (by simp [htf]), ← hns0, ← htf]
    · simp only [htf]
      rw [← hnA (by simp [htf]), ← hnA6 (by simp [htf]), ← hns0, ← htf]
    · simp only [htf]
      rw [← hnA (by simp [htf]), ← hnA6 (by simp [htf]), ← hns0, ← htf]
    · simp only [htf]
      rw [← hnA (by simp [htf]), ← hnA6 (by simp [htf]), ← hns0, ← htf]
    · simp only [htf]
      rw [← hnA (by simp [htf]), ← hnA6 (by simp [htf]), ← hns0, ← htf]
    · simp only [htf]
      rw [← hnA (by simp [htf]), ← hnA6 (by simp [htf]), ← hns0, ← htf]
    · simp only [htf]
      rw [← hnA (by simp [htf]), ← hnA6 (by simp [htf]), ← hns0, ← htf]
    · obtain ⟨hsomeA, hipA⟩ := hA6 htf
      rcases hx : aaaa_record_ipv6 r.data with _ | v
      · rw [hx] at hsomeA
        simp at hsomeA
      · simp only [htf, hx]
        have hv4 := hnA (by simp [htf])
        have hv6 : r.ipv6 = some v := by rw [hipA, hx]
        rw [← hv4, ← hns0, ← hv6, ← htf]

theorem DNSQuestion.encoding_parses_question (q : DNSQuestion) (h : wfQuestion q) (fuel : Nat) :
    ParsesTo (DNSQuestion.from_reader (fuel + 1)) q.to_bytes q := by
  intro pre rest
  have hl2 : q.type_field.to_be_bytes.length = 2 := by cases q.type_field <;> rfl
  have hl3 : q.class_field.to_be_bytes.length = 2 := by cases q.class_field <;> rfl
  have h1 := DomainName.encoding_parses_name q.name h fuel pre
    (q.type_field.to_be_bytes ++ (q.class_field.to_be_bytes ++ rest))
  have h2 := TypeField.encoding_parses_type q.type_field (pre ++ q.name.to_bytes)
    (q.class_field.to_be_bytes ++ rest)
  have h3 := ClassField.encoding_parses_class q.class_field
    (pre ++ q.name.to_bytes ++ q.type_field.to_be_bytes) rest
  simp only [List.append_assoc, List.length_append, hl2, hl3, Nat.add_assoc,
    Nat.reduceAdd] at h1 h2 h3
  unfold DNSQuestion.from_reader
  simp only [DNSQuestion.to_bytes, List.append_assoc, List.length_append, hl2, hl3,
    Nat.add_assoc, Nat.reduceAdd]
  rw [h1]
  simp only [Nat.add_assoc, Nat.reduceAdd, h2, h3]

theorem parseN_parses {α : Type} (parse : Cursor → Outcome (α × Cursor))
    (enc : α → List Byte) :
    ∀ xs : List α, (∀ x ∈ xs, ParsesTo parse (enc x) x) →
      ParsesTo (parseN parse xs.length) ((xs.map enc).flatten) xs := by
  intro xs
  induction xs with
  | nil =>
    intro h pre rest
    simp [parseN]
  | cons x xs ih =>
    intro h pre rest
    have hx := h x (List.mem_cons_self x xs) pre ((xs.map enc).flatten ++ rest)
    have hrest := ih (fun y hy => h y (List.mem_cons_of_mem x hy)) (pre ++ enc x) rest
    simp only [List.map_cons, List.flatten_cons, List.append_assoc, List.length_append,
      List.length_cons, Nat.add_assoc] at hx hrest ⊢
    simp only [parseN]
    rw [hx]
    simp only [hrest]

theorem DNSPacket.from_to_bytes (p : DNSPacket) (hwf : wfPacket p) (fuel : Nat) :
    DNSPacket.from (fuel + 1) p.to_bytes = .ok p := by
  obtain ⟨hh, hq, ha, hau, had, hqw, haw, hauw, hadw⟩ := hwf
  have h1 := DNSHeader.to_bytes_parses p.header hh []
    ((p.questions.map DNSQuestion.to_bytes).flatten ++
      ((p.answers.map DNSRecord.to_bytes).flatten ++
        ((p.authorities.map DNSRecord.to_bytes).flatten ++
          (p.additionals.map DNSRecord.to_bytes).flatten)))
  have h2 := parseN_parses (DNSQuestion.from_reader (fuel + 1)) DNSQuestion.to_bytes
    p.questions (fun q hq' => DNSQuestion.encoding_parses_question q (hqw q hq') fuel)
    p.header.to_bytes
    ((p.answers.map DNSRecord.to_bytes).flatten ++
      ((p.authorities.map DNSRecord.to_bytes).flatten ++
        (p.additionals.map DNSRecord.to_bytes).flatten))
  have h3 := parseN_parses (DNSRecord.from_reader (fuel + 1)) DNSRecord.to_bytes
    p.answers (fun r hr => DNSRecord.encoding_parses_record r (haw r hr) fuel)
    (p.header.to_bytes ++ (p.questions.map DNSQuestion.to_bytes).flatten)
    ((p.authorities.map DNSRecord.to_bytes).flatten ++
      (p.additionals.map DNSRecord.to_bytes).flatten)
  have h4 := parseN_parses (DNSRecord.from_reader (fuel + 1)) DNSRecord.to_bytes
    p.authorities (fun r hr => DNSRecord.encoding_parses_record r (hauw r hr) fuel)
    (p.header.to_bytes ++ (p.questions.map DNSQuestion.to_bytes).flatten ++
      (p.answers.map DNSRecord.to_bytes).flatten)
    (p.additionals.map DNSRecord.to_bytes).flatten
  have h5 := parseN_parses (DNSRecord.from_reader (fuel + 1)) DNSRecord.to_bytes
    p.additionals (fun r hr => DNSRecord.encoding_parses_record r (hadw r hr) fuel)
    (p.header.to_bytes ++ (p.questions.map DNSQuestion.to_bytes).flatten ++
      (p.answers.map DNSRecord.to_bytes).flatten ++
      (p.authorities.map DNSRecord.to_bytes).flatten)
    []
  simp only [List.append_assoc, List.append_nil, List.nil_append, List.length_append,
    List.length_nil, Nat.add_assoc, Nat.zero_add] at h1 h2 h3 h4 h5
  unfold DNSPacket.from
  simp only [DNSPacket.to_bytes, List.append_assoc]
  rw [h1]
  simp only [hq, ha, hau, had, Nat.add_assoc, Nat.zero_add]
  simp only [h2]
  simp only [h3]
  simp only [h4]
  simp only [h5]

/-- C8: decoding undoes encoding.  For every well-formed message the
(spec-modelled) message encoding decodes back to the same message —
header fields, question list and all three record lists; in particular
decoding `DNSHeader::to_bytes` output reproduces the header and decoding
`DomainName::to_bytes` output reproduces the dotted name, both via the
source decoders. -/
theorem decode_encode_roundtrip :
    ∀ fuel : Nat,
      (∀ p, wfPacket p → DNSPacket.from (fuel + 1) p.to_bytes = .ok p) ∧
      (∀ h, wfHeader h → DNSHeader.from_bytes h.to_bytes = h) ∧
      (∀ nm, wfName nm → DomainName.from_reader (fuel + 1) ⟨nm.to_bytes, 0⟩ =
        .ok (nm, ⟨nm.to_bytes, nm.to_bytes.length⟩)) := by
  intro fuel
  refine ⟨fun p hp => DNSPacket.from_to_bytes p hp fuel,
          fun h hh => DNSHeader.from_bytes_to_bytes h hh,
          fun nm hn => ?_⟩
  have h0 := DomainName.encoding_parses_name nm hn fuel [] []
  simpa [ParsesTo] using h0

/-- Witness for C8 on a concrete well-formed message with one question, an
A answer, an NS authority and a glue additional. -/
theorem decode_encode_roundtrip_witness :
    DNSPacket.from 1 samplePacket.to_bytes = .ok samplePacket := by
  have hwf : wfPacket samplePacket := by
    refine ⟨⟨?_, ?_, ?_, ?_, ?_, ?_⟩, ?_, ?_, ?_, ?_, ?_, ?_, ?_, ?_⟩ <;>
      first
        | decide
        | (intro x hx
           fin_cases hx <;> simp only [wfRecord, wfQuestion, wfName] <;> decide)
  exact (decode_encode_roundtrip 0).1 samplePacket hwf

/-- The iteration counter of `nameIter` is semantically irrelevant once it
exceeds the remaining buffer length: any two sufficient budgets give the
same result, so passing `c.data.length + 1` in `bytes_from_reader` is
faithful to the Rust loop (which has no such counter and terminates
because every continuing iteration consumes at least two bytes). -/
theorem nameIter_iter_irrelevant (jump : Cursor → Outcome (List Byte × Cursor)) :
    ∀ (i1 : Nat) (c : Cursor) (i2 : Nat), 0 < i1 → 0 < i2 →
      c.data.length - c.pos < i1 → c.data.length - c.pos < i2 →
      nameIter jump i1 c = nameIter jump i2 c := by
  intro i1
  induction i1 with
  | zero => intro c i2 h0 _ _ _; exact absurd h0 (by omega)
  | succ n ih =>
    intro c i2 h0 h02 hb1 hb2
    match i2, h02 with
    | m + 1, _ =>
      by_cases hb : c.pos < c.data.length
      · simp only [nameIter]
        rw [if_pos hb, if_pos hb]
        by_cases hcomp : c.data.getD c.pos 0 &&& 192 ≠ 0
        · rw [if_pos hcomp, if_pos hcomp]
        · rw [if_neg hcomp, if_neg hcomp]
          by_cases hlen : 0 < c.data.getD c.pos 0
          · rw [if_pos hlen, if_pos hlen]
            by_cases hin : c.pos + 1 + c.data.getD c.pos 0 ≤ c.data.length
            · rw [if_pos hin, if_pos hin]
              have hrw := ih ⟨c.data, c.pos + 1 + c.data.getD c.pos 0⟩ m
                (by omega) (by omega) (by simp; omega) (by simp; omega)
              rw [hrw]
            · rw [if_neg hin, if_neg hin]
          · rw [if_neg hlen, if_neg hlen]
      · simp only [nameIter]
        rw [if_neg hb, if_neg hb]

/-- C9: `build_query` produces a 12-byte header whose flags field is zero,
whose question count is one and whose answer, authority and additional
counts are zero, followed by exactly the encoding of one question with the
given name, the given type and class IN; the total length is 16 plus the
encoded name length, and only the two id bytes vary between calls. -/
theorem build_query_layout :
    ∀ (id : Nat) (name : DomainName) (t : TypeField),
      (build_query id name t).length = 16 + name.to_bytes.length ∧
      (build_query id name t).take 2 = u16ToBytes id ∧
      ((build_query id name t).drop 2).take 10 = [0, 0, 0, 1, 0, 0, 0, 0, 0, 0] ∧
      (build_query id name t).drop 12 = name.to_bytes ++ t.to_be_bytes ++ [0, 1] ∧
      ∀ id2, (build_query id2 name t).drop 2 = (build_query id name t).drop 2 := by
  intro id name t
  refine ⟨?_, ?_, ?_, ?_, ?_⟩ <;>
    simp [build_query, DNSHeader.to_bytes, DNSQuestion.to_bytes, u16ToBytes,
      TypeField.to_be_bytes, ClassField.to_be_bytes, ClassField.code] <;> omega


end ImplementDNS
